import Mathlib

/-!
Shallow embedding of `src/pipelines/sequence_classification.rs` (rust-bert
sequence-classification pipeline) and proofs about its post-processing layer.

The tensor runtime (tch), the tokenizer and the concrete transformer models are
external collaborators of the file under study; they are represented here by
abstract function parameters, while every branch, loop, panic and arithmetic
step of the pipeline file itself is translated directly.  A Rust panic
(`panic!`, `expect`, `unwrap`) is modelled as `Option.none`; a value returned
through `Result` is modelled with `Except`.
-/

set_option autoImplicit false

/-- `RustBertError` as an opaque error payload (its structure is irrelevant to
this file: the pipeline never constructs one). -/
abbrev RustBertError := String

/-- Label generated by a `SequenceClassificationModel`
(struct `Label` in the source).  Scores are modelled as exact rationals
standing for the `f64` values produced by the external tensor library. -/
structure Label where
  /-- Label String representation -/
  text : String
  /-- Confidence score -/
  score : ℚ
  /-- Label ID -/
  id : ℤ
  /-- Sentence index -/
  sentence : ℕ
deriving DecidableEq, Repr

/-- Default value used for positional lookups (`List.getD`) in statements. -/
def defaultLabel : Label := { text := "", score := 0, id := 0, sentence := 0 }

/-- Modelled from the spec: the tokenizer adapter (`TokenizerOption`, defined
outside the file under study) exposes exactly the two operations the pipeline
uses: full (untruncated) tokenization of a text to token ids, and the optional
pad-id lookup.  `encode_list` with maximum length 128 and the longest-first
truncation strategy is modelled below as truncating each encoded text with
`List.take 128`. -/
structure TokenizerModel where
  encode : String → List ℤ
  padId : Option ℤ

/-- Modelled from the spec: output structure of the external
`BartForSequenceClassification::forward_t`; the pipeline reads its
`decoder_output` field. -/
structure BartClassificationOutput (L : Type) where
  decoder_output : L
  encoder_output : Option L

/-- Modelled from the spec: output structure of the external
`BertForSequenceClassification::forward_t`; the pipeline reads `logits`. -/
structure BertClassificationOutput (L : Type) where
  logits : L
  hidden_states : Option (List L)

/-- Modelled from the spec: output structure of the external
`DistilBertModelClassifier::forward_t` (returned inside a `Result`);
the pipeline reads `logits`. -/
structure DistilBertClassificationOutput (L : Type) where
  logits : L
  hidden_states : Option (List L)

/-- Modelled from the spec: output structure of the external
`AlbertForSequenceClassification::forward_t`; the pipeline reads `logits`. -/
structure AlbertClassificationOutput (L : Type) where
  logits : L
  hidden_states : Option (List L)

/-- Abstraction that holds one particular sequence classification model, for
any of the supported models (enum `SequenceClassificationOption`).  Each
variant owns its concrete (external) model, represented as an abstract forward
function from the optional tensor arguments and the training flag to the
model-specific output structure.  `T` is the input-tensor type and `L` the
logits type. -/
inductive SequenceClassificationOption (T L : Type) where
  /-- Bert for Sequence Classification -/
  | Bert (model : Option T → Option T → Option T → Option T → Option T → Bool →
      BertClassificationOutput L)
  /-- DistilBert for Sequence Classification -/
  | DistilBert (model : Option T → Option T → Option T → Bool →
      Except RustBertError (DistilBertClassificationOutput L))
  /-- Roberta for Sequence Classification (forward returns a tuple; the
  pipeline takes component `.0`) -/
  | Roberta (model : Option T → Option T → Option T → Option T → Option T → Bool →
      L × Option (List L))
  /-- XLMRoberta for Sequence Classification -/
  | XLMRoberta (model : Option T → Option T → Option T → Option T → Option T → Bool →
      L × Option (List L))
  /-- Albert for Sequence Classification -/
  | Albert (model : Option T → Option T → Option T → Option T → Option T → Bool →
      AlbertClassificationOutput L)
  /-- Bart for Sequence Classification (forward requires the token-id tensor) -/
  | Bart (model : T → Option T → Option T → Option T → Option T → Bool →
      BartClassificationOutput L)

/-- Interface method to forward_t() of the particular models
(`SequenceClassificationOption::forward_t`).  `none` models a panic:
the Bart arm unwraps (`expect`) the optional `input_ids`, and the DistilBert
arm unwraps (`expect`) the `Result` of the underlying forward pass. -/
def SequenceClassificationOption.forward_t {T L : Type}
    (self : SequenceClassificationOption T L)
    (input_ids mask token_type_ids position_ids input_embeds : Option T)
    (train : Bool) : Option L :=
  match self with
  | .Bart model =>
    match input_ids with
    | none => none
    | some ids => some (model ids mask none none none train).decoder_output
  | .Bert model =>
    some (model input_ids mask token_type_ids position_ids input_embeds train).logits
  | .DistilBert model =>
    match model input_ids mask input_embeds train with
    | .error _ => none
    | .ok output => some output.logits
  | .Roberta model =>
    some (model input_ids mask token_type_ids position_ids input_embeds train).1
  | .XLMRoberta model =>
    some (model input_ids mask token_type_ids position_ids input_embeds train).1
  | .Albert model =>
    some (model input_ids mask token_type_ids position_ids input_embeds train).logits

/-- Modelled from the spec: softmax over one row of logits, as computed by the
external tensor library (`Tensor::softmax(-1, _)`), with the exponential map
kept abstract (it is instantiated with any strictly positive function in
witnesses; every law proved about the pipeline assumes only positivity). -/
def softmax (expF : ℚ → ℚ) (row : List ℚ) : List ℚ :=
  row.map (fun x => expF x / (row.map expF).sum)

/-- Modelled from the spec: elementwise sigmoid as computed by the external
tensor library (`Tensor::sigmoid`), with the exponential map kept abstract. -/
def sigmoid (expF : ℚ → ℚ) (x : ℚ) : ℚ :=
  1 / (1 + expF (-x))

/-- Index of the first maximal element of `rest`, continuing a scan that has
already seen `best` at index `bestIdx`, with `i` the index of the head of
`rest`. -/
def argmaxAux (i bestIdx : ℕ) (best : ℚ) : List ℚ → ℕ
  | [] => bestIdx
  | x :: xs => if best < x then argmaxAux (i + 1) i x xs else argmaxAux (i + 1) bestIdx best xs

/-- Index of the first maximal element of a row (the row-wise
`Tensor::argmax(-1, _)` of the external tensor library; `none` models its
failure on an empty reduction dimension). -/
def argmaxIdx : List ℚ → Option ℕ
  | [] => none
  | x :: xs => some (argmaxAux 1 0 x xs)

/-- Row-wise argmax of a 2-d tensor (`argmax(-1, true).squeeze1(1)`). -/
def argmaxRows : List (List ℚ) → Option (List ℕ)
  | [] => some []
  | row :: rest =>
    match argmaxIdx row, argmaxRows rest with
    | some j, some js => some (j :: js)
    | _, _ => none

/-- Row-wise gather of one scalar per row
(`gather(1, indices.unsqueeze(-1), false).squeeze1(1)`). -/
def gatherScores : List (List ℚ) → List ℕ → List ℚ
  | row :: rest, j :: js => row.getD j 0 :: gatherScores rest js
  | _, _ => []

/-- The label-construction loop of `predict` (`for sentence_idx in
0..label_indices.len()`): one `Label` per (id, score) pair, numbering
sentences from `idx`.  `none` models the panic of
`label_mapping.get(..).unwrap()` on a missing class id. -/
def buildLabels (mapping : ℤ → Option String) : List (ℤ × ℚ) → ℕ → Option (List Label)
  | [], _ => some []
  | (id, score) :: rest, idx =>
    match mapping id with
    | none => none
    | some text =>
      match buildLabels mapping rest (idx + 1) with
      | none => none
      | some tail => some ({ text := text, score := score, id := id, sentence := idx } :: tail)

/-- `SequenceClassificationModel::prepare_for_model`: tokenize every text with
maximum length 128, compute the batch-local maximum token length
(`max().unwrap()` panics on an empty batch), and right-pad every row to that
maximum with the tokenizer's pad id (`get_pad_id().expect(..)` panics when the
tokenizer defines none; the `vec![pad; n]` expansion evaluates the pad id for
every row of a non-empty batch, even rows needing no padding). -/
def prepare_for_model (tok : TokenizerModel) (input : List String) : Option (List (List ℤ)) :=
  let tokenized := input.map (fun t => (tok.encode t).take 128)
  if input.isEmpty then none
  else
    let max_len := (tokenized.map List.length).foldr max 0
    match tok.padId with
    | none => none
    | some pad =>
      some (tokenized.map (fun row => row ++ List.replicate (max_len - row.length) pad))

/-- `SequenceClassificationModel::predict`: batch preparation, forward pass
with all optional arguments absent and `train = false`, softmax over the class
dimension, row-wise argmax and gather, then one `Label` per row. -/
def predict (tok : TokenizerModel)
    (cls : SequenceClassificationOption (List (List ℤ)) (List (List ℚ)))
    (expF : ℚ → ℚ) (mapping : ℤ → Option String) (input : List String) :
    Option (List Label) :=
  match prepare_for_model tok input with
  | none => none
  | some input_tensor =>
    match cls.forward_t (some input_tensor) none none none none false with
    | none => none
    | some logits =>
      let output := logits.map (softmax expF)
      match argmaxRows output with
      | none => none
      | some label_indices =>
        let scores := gatherScores output label_indices
        buildLabels mapping (List.zip (label_indices.map Int.ofNat) scores) 0

/-- Selection of the above-threshold coordinates of one row
(`ge(threshold)` restricted to row `i`, with `j` the column index of the head). -/
def rowSelect (i : ℕ) (threshold : ℚ) : List ℚ → ℕ → List (ℕ × ℕ)
  | [], _ => []
  | x :: xs, j =>
    if threshold ≤ x then (i, j) :: rowSelect i threshold xs (j + 1)
    else rowSelect i threshold xs (j + 1)

/-- `output.ge(threshold).nonzero()`: the (sentence, class) coordinates of all
above-threshold entries, in row-major order, with `i` the index of the first
row. -/
def nonzeroGE (threshold : ℚ) : List (List ℚ) → ℕ → List (ℕ × ℕ)
  | [], _ => []
  | row :: rest, i => rowSelect i threshold row 0 ++ nonzeroGE threshold rest (i + 1)

/-- The `Label` built for one selected (sentence, class) coordinate:
score read back from the activation tensor (`output.double_value(..)`), label
text from the mapping (defaulted for statement purposes; the loop itself
panics on a missing id). -/
def selectionLabel (mapping : ℤ → Option String) (output : List (List ℚ))
    (p : ℕ × ℕ) : Label :=
  { text := (mapping (p.2 : ℤ)).getD ""
    score := (output.getD p.1 []).getD p.2 0
    id := (p.2 : ℤ)
    sentence := p.1 }

/-- The grouping loop of `predict_multilabel` over the selected coordinates,
with its running state (`labels`, `sequence_labels`).  A new per-sentence list
is started when the current sentence index strictly exceeds the number of
lists already emitted (`if sentence as usize > labels.len()`), and a trailing
non-empty `sequence_labels` is flushed after the loop.  `none` models the
panic of `label_mapping.get(&id).unwrap()`. -/
def multilabelLoop (mapping : ℤ → Option String) (output : List (List ℚ)) :
    List (ℕ × ℕ) → List (List Label) → List Label → Option (List (List Label))
  | [], labels, seq => some (if seq.isEmpty then labels else labels ++ [seq])
  | (sentence, id) :: rest, labels, seq =>
    let st : List (List Label) × List Label :=
      if labels.length < sentence then (labels ++ [seq], []) else (labels, seq)
    match mapping (id : ℤ) with
    | none => none
    | some text =>
      multilabelLoop mapping output rest st.1
        (st.2 ++ [{ text := text
                    score := (output.getD sentence []).getD id 0
                    id := (id : ℤ)
                    sentence := sentence }])

/-- `SequenceClassificationModel::predict_multilabel`: batch preparation,
forward pass with all optional arguments absent and `train = false`,
elementwise sigmoid, selection of all coordinates with score ≥ threshold,
then the grouping loop; the resulting lists are returned through `Ok`
(the `Result` channel is never used for an error). -/
def predict_multilabel (tok : TokenizerModel)
    (cls : SequenceClassificationOption (List (List ℤ)) (List (List ℚ)))
    (expF : ℚ → ℚ) (mapping : ℤ → Option String) (input : List String)
    (threshold : ℚ) : Option (Except RustBertError (List (List Label))) :=
  match prepare_for_model tok input with
  | none => none
  | some input_tensor =>
    match cls.forward_t (some input_tensor) none none none none false with
    | none => none
    | some logits =>
      let output := logits.map (fun row => row.map (sigmoid expF))
      let label_indices := nonzeroGE threshold output 0
      match multilabelLoop mapping output label_indices [] [] with
      | none => none
      | some labels => some (Except.ok labels)

/-- Modelled from the spec: the nine known model family tags (`ModelType`,
defined outside the file under study; the nine variants are pinned by the
exhaustive match in `SequenceClassificationOption::new`). -/
inductive ModelType where
  | Bert | DistilBert | Roberta | XLMRoberta | Albert | Bart | Electra | Marian | T5
deriving DecidableEq, Fintype, Repr

/-- Modelled from the spec: the configuration variants (`ConfigOption`,
defined outside the file under study) that the construction dispatch of the
file under study inspects; payloads are elided, only the variant tag matters
to the dispatch. -/
inductive ConfigVariant where
  | Bert | DistilBert | Albert | Bart
deriving DecidableEq, Fintype, Repr

/-- The variant of `SequenceClassificationOption` selected by a successful
construction (the concrete model value it would carry is external). -/
inductive SCVariant where
  | Bert | DistilBert | Roberta | XLMRoberta | Albert | Bart
deriving DecidableEq, Fintype, Repr

/-- `SequenceClassificationOption::new`: dispatch on the requested model
family and the supplied configuration variant.  `Except.error msg` models
`panic!(msg)` (construction aborts; no error value is returned in the
source). -/
def sequenceClassificationOptionNew : ModelType → ConfigVariant → Except String SCVariant
  | .Bert, .Bert => .ok .Bert
  | .Bert, _ => .error "You can only supply a BertConfig for Bert!"
  | .DistilBert, .DistilBert => .ok .DistilBert
  | .DistilBert, _ => .error "You can only supply a DistilBertConfig for DistilBert!"
  | .Roberta, .Bert => .ok .Roberta
  | .Roberta, _ => .error "You can only supply a BertConfig for Roberta!"
  | .XLMRoberta, .Bert => .ok .XLMRoberta
  | .XLMRoberta, _ => .error "You can only supply a BertConfig for Roberta!"
  | .Albert, .Albert => .ok .Albert
  | .Albert, _ => .error "You can only supply an AlbertConfig for Albert!"
  | .Bart, .Bart => .ok .Bart
  | .Bart, _ => .error "You can only supply a BertConfig for Bert!"
  | .Electra, _ => .error "SequenceClassification not implemented for Electra!"
  | .Marian, _ => .error "SequenceClassification not implemented for Marian!"
  | .T5, _ => .error "SequenceClassification not implemented for T5!"

/-- Specification-side definition (for comparison with the dispatch above):
the (family, config-variant) pairs that construction accepts — Bert, Roberta
and XLMRoberta accept the Bert configuration variant, DistilBert, Albert and
Bart require their own, Electra, Marian and T5 accept none. -/
def acceptsConfig : ModelType → ConfigVariant → Bool
  | .Bert, .Bert => true
  | .DistilBert, .DistilBert => true
  | .Roberta, .Bert => true
  | .XLMRoberta, .Bert => true
  | .Albert, .Albert => true
  | .Bart, .Bart => true
  | _, _ => false

/-- Whether an `Except` is a success. -/
def exceptIsOk {ε α : Type} : Except ε α → Bool
  | .ok _ => true
  | .error _ => false

/-- The panic message produced by a failing construction, if any. -/
def newErrMsg (mt : ModelType) (cv : ConfigVariant) : Option String :=
  match sequenceClassificationOptionNew mt cv with
  | .error msg => some msg
  | .ok _ => none

/-- The facade's model option is well-shaped for prediction: on every input
tensor the forward pass (as `predict` invokes it) succeeds and returns one
non-empty logits row per input row — the `[batch, num_classes]` shape contract
of the external models. -/
def WellShaped (cls : SequenceClassificationOption (List (List ℤ)) (List (List ℚ))) : Prop :=
  ∀ t : List (List ℤ), ∃ logits,
    cls.forward_t (some t) none none none none false = some logits ∧
    logits.length = t.length ∧ ∀ row ∈ logits, row ≠ []

/-! ### List plumbing lemmas -/

lemma getD_map_of_lt {α β : Type} (f : α → β) (dα : α) (dβ : β) :
    ∀ (l : List α) (i : ℕ), i < l.length → (l.map f).getD i dβ = f (l.getD i dα)
  | _ :: _, 0, _ => rfl
  | _ :: l, i + 1, h => getD_map_of_lt f dα dβ l i (Nat.lt_of_succ_lt_succ h)

lemma getD_mem_of_lt {α : Type} (d : α) :
    ∀ (l : List α) (i : ℕ), i < l.length → l.getD i d ∈ l
  | a :: _, 0, _ => List.mem_cons_self a _
  | _ :: l, i + 1, h => List.mem_cons_of_mem _ (getD_mem_of_lt d l i (Nat.lt_of_succ_lt_succ h))

lemma getD_zip_of_lt {α β : Type} (dα : α) (dβ : β) :
    ∀ (as : List α) (bs : List β) (i : ℕ), i < as.length → i < bs.length →
      (List.zip as bs).getD i (dα, dβ) = (as.getD i dα, bs.getD i dβ)
  | _ :: _, _ :: _, 0, _, _ => rfl
  | _ :: as, _ :: bs, i + 1, ha, hb =>
    getD_zip_of_lt dα dβ as bs i (Nat.lt_of_succ_lt_succ ha) (Nat.lt_of_succ_lt_succ hb)

lemma mem_le_foldrMax : ∀ (l : List ℕ) (a : ℕ), a ∈ l → a ≤ l.foldr max 0 := by
  intro l
  induction l with
  | nil => intro a h; cases h
  | cons b l ih =>
    intro a h
    rcases List.mem_cons.mp h with rfl | h
    · exact le_max_left _ _
    · exact le_trans (ih a h) (le_max_right _ _)

lemma foldrMax_map_min (k : ℕ) : ∀ l : List ℕ,
    (l.map (fun x => min k x)).foldr max 0 = min k (l.foldr max 0) := by
  intro l
  induction l with
  | nil => simp
  | cons a l ih => simp [ih, min_max_distrib_left]

/-! ### Argmax lemmas -/

lemma argmaxAux_lt : ∀ (rest : List ℚ) (i bi : ℕ) (bv : ℚ), bi < i →
    argmaxAux i bi bv rest < i + rest.length := by
  intro rest
  induction rest with
  | nil => intro i bi bv h; simpa [argmaxAux] using h
  | cons x xs ih =>
    intro i bi bv h
    by_cases hlt : bv < x
    · simp only [argmaxAux, if_pos hlt, List.length_cons]
      have := ih (i + 1) i x (Nat.lt_succ_self i)
      omega
    · simp only [argmaxAux, if_neg hlt, List.length_cons]
      have := ih (i + 1) bi bv (Nat.lt_succ_of_lt h)
      omega

lemma argmaxIdx_lt {row : List ℚ} {j : ℕ} (h : argmaxIdx row = some j) : j < row.length := by
  cases row with
  | nil => cases h
  | cons x xs =>
    have hj : j = argmaxAux 1 0 x xs := by
      simpa [argmaxIdx] using h.symm
    subst hj
    simpa [Nat.add_comm] using argmaxAux_lt xs 1 0 x Nat.one_pos

lemma argmaxAux_ge (P : ℕ → ℚ) : ∀ (rest : List ℚ) (i bi : ℕ) (bv : ℚ),
    P bi = bv → (∀ k, k < rest.length → P (i + k) = rest.getD k 0) →
    (∀ y ∈ rest, y ≤ P (argmaxAux i bi bv rest)) ∧ bv ≤ P (argmaxAux i bi bv rest) := by
  intro rest
  induction rest with
  | nil =>
    intro i bi bv hbi _
    exact ⟨fun y hy => absurd hy (List.not_mem_nil y), le_of_eq hbi.symm⟩
  | cons x xs ih =>
    intro i bi bv hbi hrest
    have hx : P i = x := by simpa using hrest 0 (Nat.succ_pos _)
    have hrest' : ∀ k, k < xs.length → P (i + 1 + k) = xs.getD k 0 := by
      intro k hk
      have := hrest (k + 1) (Nat.succ_lt_succ hk)
      simpa [Nat.add_assoc, Nat.add_comm 1 k] using this
    by_cases hlt : bv < x
    · simp only [argmaxAux, if_pos hlt]
      obtain ⟨h1, h2⟩ := ih (i + 1) i x hx hrest'
      refine ⟨fun y hy => ?_, le_trans (le_of_lt hlt) h2⟩
      rcases List.mem_cons.mp hy with rfl | hy
      · exact h2
      · exact h1 y hy
    · simp only [argmaxAux, if_neg hlt]
      obtain ⟨h1, h2⟩ := ih (i + 1) bi bv hbi hrest'
      refine ⟨fun y hy => ?_, h2⟩
      rcases List.mem_cons.mp hy with rfl | hy
      · exact le_trans (not_lt.mp hlt) h2
      · exact h1 y hy

lemma argmaxIdx_is_max {row : List ℚ} {j : ℕ} (h : argmaxIdx row = some j) :
    ∀ y ∈ row, y ≤ row.getD j 0 := by
  cases row with
  | nil => cases h
  | cons x xs =>
    have hj : j = argmaxAux 1 0 x xs := by
      simpa [argmaxIdx] using h.symm
    subst hj
    have := argmaxAux_ge (fun k => (x :: xs).getD k 0) xs 1 0 x rfl ?_
    · intro y hy
      rcases List.mem_cons.mp hy with rfl | hy
      · exact this.2
      · exact this.1 y hy
    · intro k hk
      simp [Nat.add_comm 1 k]

lemma argmaxRows_spec : ∀ out : List (List ℚ), (∀ row ∈ out, row ≠ []) →
    ∃ idxs, argmaxRows out = some idxs ∧ idxs.length = out.length ∧
      ∀ i, i < out.length → argmaxIdx (out.getD i []) = some (idxs.getD i 0) := by
  intro out
  induction out with
  | nil => intro _; exact ⟨[], rfl, rfl, fun i hi => absurd hi (Nat.not_lt_zero i)⟩
  | cons row rest ih =>
    intro h
    obtain ⟨x, xs, rfl⟩ := List.exists_cons_of_ne_nil (h row (List.mem_cons_self _ _))
    obtain ⟨idxs, h1, h2, h3⟩ := ih (fun r hr => h r (List.mem_cons_of_mem _ hr))
    refine ⟨argmaxAux 1 0 x xs :: idxs, ?_, by simp [h2], ?_⟩
    · simp [argmaxRows, argmaxIdx, h1]
    · intro i hi
      cases i with
      | zero => rfl
      | succ i => exact h3 i (Nat.lt_of_succ_lt_succ hi)

lemma gatherScores_spec : ∀ (out : List (List ℚ)) (idxs : List ℕ),
    idxs.length = out.length →
    (gatherScores out idxs).length = out.length ∧
    ∀ i, i < out.length →
      (gatherScores out idxs).getD i 0 = (out.getD i []).getD (idxs.getD i 0) 0 := by
  intro out
  induction out with
  | nil =>
    intro idxs _
    exact ⟨by cases idxs <;> rfl, fun i hi => absurd hi (Nat.not_lt_zero i)⟩
  | cons row rest ih =>
    intro idxs hlen
    cases idxs with
    | nil => cases hlen
    | cons j js =>
      obtain ⟨h1, h2⟩ := ih js (Nat.succ_injective hlen)
      refine ⟨by simp [gatherScores, h1], ?_⟩
      intro i hi
      cases i with
      | zero => rfl
      | succ i => exact h2 i (Nat.lt_of_succ_lt_succ hi)

lemma buildLabels_spec (mapping : ℤ → Option String) :
    ∀ (pairs : List (ℤ × ℚ)) (start : ℕ),
    (∀ p ∈ pairs, (mapping p.1).isSome) →
    ∃ out, buildLabels mapping pairs start = some out ∧ out.length = pairs.length ∧
      ∀ i, i < pairs.length → out.getD i defaultLabel =
        { text := (mapping (pairs.getD i (0, 0)).1).getD ""
          score := (pairs.getD i (0, 0)).2
          id := (pairs.getD i (0, 0)).1
          sentence := start + i } := by
  intro pairs
  induction pairs with
  | nil =>
    intro start _
    exact ⟨[], rfl, rfl, fun i hi => absurd hi (Nat.not_lt_zero i)⟩
  | cons p rest ih =>
    intro start h
    obtain ⟨id, score⟩ := p
    obtain ⟨text, htext⟩ :=
      Option.isSome_iff_exists.mp (h (id, score) (List.mem_cons_self _ _))
    obtain ⟨tail, h1, h2, h3⟩ := ih (start + 1) (fun q hq => h q (List.mem_cons_of_mem _ hq))
    refine ⟨{ text := text, score := score, id := id, sentence := start } :: tail,
      by simp [buildLabels, htext, h1], by simp [h2], ?_⟩
    intro i hi
    cases i with
    | zero => simp [htext]
    | succ i =>
      have := h3 i (Nat.lt_of_succ_lt_succ hi)
      simpa [Nat.add_assoc, Nat.add_comm 1 i] using this

/-! ### Batch-preparation lemmas -/

lemma prepare_spec (tok : TokenizerModel) (input : List String) (pad : ℤ)
    (hne : input ≠ []) (hpad : tok.padId = some pad) :
    ∃ rows, prepare_for_model tok input = some rows ∧
      rows.length = input.length ∧
      (∀ row ∈ rows, row.length =
        min 128 ((input.map (fun s => (tok.encode s).length)).foldr max 0)) ∧
      ∀ i, i < input.length → rows.getD i [] =
        (tok.encode (input.getD i "")).take 128 ++
          List.replicate
            ((min 128 ((input.map (fun s => (tok.encode s).length)).foldr max 0)) -
              ((tok.encode (input.getD i "")).take 128).length) pad := by
  have hempty : input.isEmpty = false := by
    cases input with
    | nil => exact absurd rfl hne
    | cons a l => rfl
  have hM : ((input.map (fun t => (tok.encode t).take 128)).map List.length).foldr max 0 =
      min 128 ((input.map (fun s => (tok.encode s).length)).foldr max 0) := by
    rw [List.map_map]
    have : (List.length ∘ fun t => (tok.encode t).take 128) =
        (fun x => min 128 x) ∘ (fun s => (tok.encode s).length) := by
      funext t
      simp [List.length_take]
    rw [this, ← List.map_map]
    exact foldrMax_map_min 128 (input.map fun s => (tok.encode s).length)
  refine ⟨(input.map (fun t => (tok.encode t).take 128)).map
      (fun row => row ++ List.replicate
        (((input.map (fun t => (tok.encode t).take 128)).map List.length).foldr max 0 -
          row.length) pad), ?_, ?_, ?_, ?_⟩
  · simp only [prepare_for_model, hempty, Bool.false_eq_true, if_false, hpad]
  · simp
  · intro row hrow
    obtain ⟨trunc, htrunc, rfl⟩ := List.mem_map.mp hrow
    have hle : trunc.length ≤
        ((input.map (fun t => (tok.encode t).take 128)).map List.length).foldr max 0 :=
      mem_le_foldrMax _ _ (List.mem_map_of_mem List.length htrunc)
    rw [List.length_append, List.length_replicate, hM] at *
    omega
  · intro i hi
    have h1 : (input.map (fun t => (tok.encode t).take 128)).getD i [] =
        (tok.encode (input.getD i "")).take 128 :=
      getD_map_of_lt _ "" [] input i hi
    have hi' : i < (input.map (fun t => (tok.encode t).take 128)).length := by
      simpa using hi
    calc ((input.map (fun t => (tok.encode t).take 128)).map
          (fun row => row ++ List.replicate
            (((input.map (fun t => (tok.encode t).take 128)).map List.length).foldr max 0 -
              row.length) pad)).getD i []
        = (input.map (fun t => (tok.encode t).take 128)).getD i [] ++
            List.replicate
              (((input.map (fun t => (tok.encode t).take 128)).map List.length).foldr max 0 -
                ((input.map (fun t => (tok.encode t).take 128)).getD i []).length) pad := by
          exact getD_map_of_lt _ [] [] _ i hi'
      _ = _ := by rw [h1, hM]

lemma prepare_none_of_no_padId (tok : TokenizerModel) (input : List String)
    (hne : input ≠ []) (hpad : tok.padId = none) :
    prepare_for_model tok input = none := by
  have hempty : input.isEmpty = false := by
    cases input with
    | nil => exact absurd rfl hne
    | cons a l => rfl
  simp [prepare_for_model, hempty, hpad]

/-! ### Activation bounds -/

lemma softmax_mem_unit_interval {expF : ℚ → ℚ} (hexp : ∀ x, 0 < expF x)
    {row : List ℚ} :
    ∀ y ∈ softmax expF row, 0 ≤ y ∧ y ≤ 1 := by
  intro y hy
  obtain ⟨x, hx, rfl⟩ := List.mem_map.mp hy
  have hnonneg : ∀ z ∈ row.map expF, 0 ≤ z := by
    intro z hz
    obtain ⟨w, _, rfl⟩ := List.mem_map.mp hz
    exact le_of_lt (hexp w)
  have hle : expF x ≤ (row.map expF).sum :=
    List.single_le_sum hnonneg _ (List.mem_map_of_mem expF hx)
  have hpos : 0 < (row.map expF).sum := lt_of_lt_of_le (hexp x) hle
  exact ⟨div_nonneg (le_of_lt (hexp x)) (le_of_lt hpos), (div_le_one hpos).mpr hle⟩

lemma sigmoid_pos {expF : ℚ → ℚ} (hexp : ∀ x, 0 < expF x) (x : ℚ) :
    0 < sigmoid expF x := by
  have h : (0 : ℚ) < 1 + expF (-x) := by
    have := hexp (-x)
    linarith
  exact div_pos one_pos h

lemma sigmoid_lt_one {expF : ℚ → ℚ} (hexp : ∀ x, 0 < expF x) (x : ℚ) :
    sigmoid expF x < 1 := by
  have he := hexp (-x)
  have h : (0 : ℚ) < 1 + expF (-x) := by linarith
  rw [sigmoid, div_lt_one h]
  linarith

/-! ### Selection (`ge(threshold).nonzero()`) lemmas -/

lemma rowSelect_mem {threshold : ℚ} {s c : ℕ} :
    ∀ (row : List ℚ) (i j : ℕ), (s, c) ∈ rowSelect i threshold row j →
      s = i ∧ j ≤ c ∧ threshold ≤ row.getD (c - j) 0 := by
  intro row
  induction row with
  | nil => intro i j h; cases h
  | cons x xs ih =>
    intro i j h
    by_cases hx : threshold ≤ x
    · rw [rowSelect, if_pos hx] at h
      rcases List.mem_cons.mp h with heq | h
      · obtain ⟨rfl, rfl⟩ := Prod.mk.injEq .. ▸ (Prod.ext_iff.mp heq)
        exact ⟨rfl, le_refl _, by simpa using hx⟩
      · obtain ⟨rfl, hjc, hth⟩ := ih i (j + 1) h
        refine ⟨rfl, by omega, ?_⟩
        have hcj : c - j = (c - (j + 1)) + 1 := by omega
        rw [hcj]
        simpa using hth
    · rw [rowSelect, if_neg hx] at h
      obtain ⟨rfl, hjc, hth⟩ := ih i (j + 1) h
      refine ⟨rfl, by omega, ?_⟩
      have hcj : c - j = (c - (j + 1)) + 1 := by omega
      rw [hcj]
      simpa using hth

lemma rowSelect_empty_of_lt {threshold : ℚ} :
    ∀ (row : List ℚ) (i j : ℕ), (∀ x ∈ row, x < threshold) →
      rowSelect i threshold row j = [] := by
  intro row
  induction row with
  | nil => intro i j _; rfl
  | cons x xs ih =>
    intro i j h
    rw [rowSelect, if_neg (not_le.mpr (h x (List.mem_cons_self _ _)))]
    exact ih i (j + 1) (fun y hy => h y (List.mem_cons_of_mem _ hy))

lemma nonzeroGE_mem {threshold : ℚ} {s c : ℕ} :
    ∀ (out : List (List ℚ)) (i : ℕ), (s, c) ∈ nonzeroGE threshold out i →
      i ≤ s ∧ s - i < out.length ∧ threshold ≤ (out.getD (s - i) []).getD c 0 := by
  intro out
  induction out with
  | nil => intro i h; cases h
  | cons row rest ih =>
    intro i h
    rcases List.mem_append.mp h with h | h
    · obtain ⟨rfl, hjc, hth⟩ := rowSelect_mem row i 0 h
      exact ⟨le_refl _, by simp, by simpa using hth⟩
    · obtain ⟨his, hlen, hth⟩ := ih (i + 1) h
      refine ⟨by omega, by simp; omega, ?_⟩
      have hsi : s - i = (s - (i + 1)) + 1 := by omega
      rw [hsi]
      simpa using hth

lemma nonzeroGE_empty_of_lt {threshold : ℚ} :
    ∀ (out : List (List ℚ)) (i : ℕ), (∀ row ∈ out, ∀ x ∈ row, x < threshold) →
      nonzeroGE threshold out i = [] := by
  intro out
  induction out with
  | nil => intro i _; rfl
  | cons row rest ih =>
    intro i h
    rw [nonzeroGE, rowSelect_empty_of_lt row i 0 (h row (List.mem_cons_self _ _)),
      ih (i + 1) (fun r hr => h r (List.mem_cons_of_mem _ hr))]
    rfl

/-! ### Multi-label grouping-loop lemmas -/

lemma multilabelLoop_spec (mapping : ℤ → Option String) (output : List (List ℚ)) :
    ∀ sel : List (ℕ × ℕ), (∀ p ∈ sel, (mapping (p.2 : ℤ)).isSome) →
    ∀ (labels : List (List Label)) (seq : List Label),
      ∃ r, multilabelLoop mapping output sel labels seq = some r ∧
        r.flatten = labels.flatten ++ seq ++ sel.map (selectionLabel mapping output) := by
  intro sel
  induction sel with
  | nil =>
    intro _ labels seq
    refine ⟨if seq.isEmpty then labels else labels ++ [seq], rfl, ?_⟩
    cases seq with
    | nil => simp
    | cons a l => simp
  | cons p rest ih =>
    intro h labels seq
    obtain ⟨s, c⟩ := p
    obtain ⟨text, htext⟩ := Option.isSome_iff_exists.mp (h (s, c) (List.mem_cons_self _ _))
    have hrest := fun q hq => h q (List.mem_cons_of_mem _ hq)
    by_cases hlt : labels.length < s
    · obtain ⟨r, hr, hjoin⟩ := ih hrest (labels ++ [seq])
        ([] ++ [{ text := text
                  score := (output.getD s []).getD c 0
                  id := (c : ℤ)
                  sentence := s }])
      refine ⟨r, ?_, ?_⟩
      · rw [multilabelLoop, htext] at *
        simpa [hlt] using hr
      · rw [hjoin]
        simp [selectionLabel, htext]
    · obtain ⟨r, hr, hjoin⟩ := ih hrest labels
        (seq ++ [{ text := text
                   score := (output.getD s []).getD c 0
                   id := (c : ℤ)
                   sentence := s }])
      refine ⟨r, ?_, ?_⟩
      · rw [multilabelLoop, htext] at *
        simpa [hlt] using hr
      · rw [hjoin]
        simp [selectionLabel, htext]

/-! ### Pipeline master lemmas -/

lemma predict_spec (tok : TokenizerModel)
    (cls : SequenceClassificationOption (List (List ℤ)) (List (List ℚ)))
    (expF : ℚ → ℚ) (mapping : ℤ → Option String) (input : List String)
    (t : List (List ℤ)) (logits : List (List ℚ))
    (hp : prepare_for_model tok input = some t)
    (hf : cls.forward_t (some t) none none none none false = some logits)
    (hrows : ∀ row ∈ logits, row ≠ [])
    (hmap : ∀ id : ℤ, (mapping id).isSome) :
    ∃ labels, predict tok cls expF mapping input = some labels ∧
      labels.length = logits.length ∧
      ∀ i, i < logits.length →
        ∃ j, argmaxIdx (softmax expF (logits.getD i [])) = some j ∧
          labels.getD i defaultLabel =
            { text := (mapping (Int.ofNat j)).getD ""
              score := (softmax expF (logits.getD i [])).getD j 0
              id := Int.ofNat j, sentence := i } := by
  have hrows' : ∀ row ∈ logits.map (softmax expF), row ≠ [] := by
    intro row hrow
    obtain ⟨src, hsrc, rfl⟩ := List.mem_map.mp hrow
    simpa [softmax] using hrows src hsrc
  obtain ⟨idxs, hidxs, hidxlen, hidxpt⟩ := argmaxRows_spec (logits.map (softmax expF)) hrows'
  have houtlen : (logits.map (softmax expF)).length = logits.length := List.length_map _ _
  obtain ⟨hglen, hgpt⟩ := gatherScores_spec (logits.map (softmax expF)) idxs
    (by rw [hidxlen])
  have hpairslen : (List.zip (idxs.map Int.ofNat)
      (gatherScores (logits.map (softmax expF)) idxs)).length = logits.length := by
    rw [List.length_zip, List.length_map, hidxlen, hglen, houtlen]
    exact min_self _
  obtain ⟨out, hbuild, hblen, hbpt⟩ := buildLabels_spec mapping
    (List.zip (idxs.map Int.ofNat)
      (gatherScores (logits.map (softmax expF)) idxs)) 0
    (fun p _ => hmap p.1)
  refine ⟨out, ?_, by rw [hblen, hpairslen], ?_⟩
  · simp only [predict, hp, hf, hidxs]
    exact hbuild
  · intro i hi
    have hiout : i < (logits.map (softmax expF)).length := by rwa [houtlen]
    have hgetd : (logits.map (softmax expF)).getD i [] = softmax expF (logits.getD i []) :=
      getD_map_of_lt _ [] [] logits i hi
    refine ⟨idxs.getD i 0, by rw [← hgetd]; exact hidxpt i hiout, ?_⟩
    have hzip : (List.zip (idxs.map Int.ofNat)
        (gatherScores (logits.map (softmax expF)) idxs)).getD i (0, 0) =
        ((idxs.map Int.ofNat).getD i 0,
          (gatherScores (logits.map (softmax expF)) idxs).getD i 0) := by
      apply getD_zip_of_lt
      · rw [List.length_map, hidxlen, houtlen]; exact hi
      · rw [hglen, houtlen]; exact hi
    have hmapidx : (idxs.map Int.ofNat).getD i 0 = Int.ofNat (idxs.getD i 0) :=
      getD_map_of_lt _ 0 0 idxs i (by rw [hidxlen, houtlen]; exact hi)
    have hsc : (gatherScores (logits.map (softmax expF)) idxs).getD i 0 =
        (softmax expF (logits.getD i [])).getD (idxs.getD i 0) 0 := by
      rw [hgpt i hiout, hgetd]
    have := hbpt i (by rw [hpairslen]; exact hi)
    rw [hzip, hmapidx, hsc] at this
    simpa using this

lemma predict_multilabel_spec (tok : TokenizerModel)
    (cls : SequenceClassificationOption (List (List ℤ)) (List (List ℚ)))
    (expF : ℚ → ℚ) (mapping : ℤ → Option String) (input : List String)
    (threshold : ℚ) (t : List (List ℤ)) (logits : List (List ℚ))
    (hp : prepare_for_model tok input = some t)
    (hf : cls.forward_t (some t) none none none none false = some logits)
    (hmap : ∀ id : ℤ, (mapping id).isSome) :
    ∃ r, predict_multilabel tok cls expF mapping input threshold =
        some (Except.ok r) ∧
      r.flatten = (nonzeroGE threshold (logits.map (fun row => row.map (sigmoid expF))) 0).map
        (selectionLabel mapping (logits.map (fun row => row.map (sigmoid expF)))) := by
  obtain ⟨r, hr, hjoin⟩ := multilabelLoop_spec mapping
    (logits.map (fun row => row.map (sigmoid expF)))
    (nonzeroGE threshold (logits.map (fun row => row.map (sigmoid expF))) 0)
    (fun p _ => hmap (p.2 : ℤ)) [] []
  refine ⟨r, ?_, by simpa using hjoin⟩
  simp only [predict_multilabel, hp, hf, hr]

/-! ### Claim theorems -/

/-- C3: for every non-empty batch whose tokenized (truncated) lengths are
l1..ln, `prepare_for_model` produces a two-dimensional tensor whose second
dimension equals min(128, max over the original token lengths), every shorter
row being right-padded to that batch-local maximum with the tokenizer's
pad-id; and if the tokenizer defines no pad-id and some row needs padding,
the operation fails fatally (modelled as `none`). -/
theorem seqcls_c3_prepare_batch_shape (tok : TokenizerModel) (input : List String)
    (hne : input ≠ []) :
    (∀ pad, tok.padId = some pad →
      ∃ rows, prepare_for_model tok input = some rows ∧
        rows.length = input.length ∧
        (∀ row ∈ rows, row.length =
          min 128 ((input.map (fun s => (tok.encode s).length)).foldr max 0)) ∧
        ∀ i, i < input.length → rows.getD i [] =
          (tok.encode (input.getD i "")).take 128 ++
            List.replicate
              ((min 128 ((input.map (fun s => (tok.encode s).length)).foldr max 0)) -
                ((tok.encode (input.getD i "")).take 128).length) pad) ∧
    (tok.padId = none →
      (∃ s ∈ input, ((tok.encode s).take 128).length <
        min 128 ((input.map (fun t => (tok.encode t).length)).foldr max 0)) →
      prepare_for_model tok input = none) :=
  ⟨fun pad hpad => prepare_spec tok input pad hne hpad,
   fun hpad _ => prepare_none_of_no_padId tok input hne hpad⟩

/-- C1: for every non-empty input batch (under the ready-facade invariants:
a defined pad-id, a total label mapping and a well-shaped model), `predict`
returns exactly one `Label` per input text, in input order, with the
`sentence` field of the i-th returned label equal to i. -/
theorem seqcls_c1_predict_one_label_per_input (tok : TokenizerModel)
    (cls : SequenceClassificationOption (List (List ℤ)) (List (List ℚ)))
    (expF : ℚ → ℚ) (mapping : ℤ → Option String) (input : List String)
    (pad : ℤ) (hpad : tok.padId = some pad)
    (hws : WellShaped cls) (hmap : ∀ id : ℤ, (mapping id).isSome)
    (hne : input ≠ []) :
    ∃ labels, predict tok cls expF mapping input = some labels ∧
      labels.length = input.length ∧
      ∀ i, i < input.length → (labels.getD i defaultLabel).sentence = i := by
  obtain ⟨rows, hp, hrlen, -, -⟩ := prepare_spec tok input pad hne hpad
  obtain ⟨logits, hf, hllen, hrows⟩ := hws rows
  obtain ⟨labels, hpred, hlen, hpt⟩ :=
    predict_spec tok cls expF mapping input rows logits hp hf hrows hmap
  refine ⟨labels, hpred, by rw [hlen, hllen, hrlen], ?_⟩
  intro i hi
  have hi' : i < logits.length := by rw [hllen, hrlen]; exact hi
  obtain ⟨j, -, heq⟩ := hpt i hi'
  rw [heq]

/-- C7: once the facade is ready (pad-id defined, label mapping total,
well-shaped model), `predict` offers no recoverable-error path: on every
non-empty input slice it succeeds and returns a bare list of labels (its
return type `Option (List Label)` carries no error value — `none` models only
the process-aborting panics of the fatal tier). -/
theorem seqcls_c7_predict_no_error_path (tok : TokenizerModel)
    (cls : SequenceClassificationOption (List (List ℤ)) (List (List ℚ)))
    (expF : ℚ → ℚ) (mapping : ℤ → Option String) (input : List String)
    (pad : ℤ) (hpad : tok.padId = some pad)
    (hws : WellShaped cls) (hmap : ∀ id : ℤ, (mapping id).isSome)
    (hne : input ≠ []) :
    ∃ labels, predict tok cls expF mapping input = some labels := by
  obtain ⟨rows, hp, -, -, -⟩ := prepare_spec tok input pad hne hpad
  obtain ⟨logits, hf, -, hrows⟩ := hws rows
  obtain ⟨labels, hpred, -, -⟩ :=
    predict_spec tok cls expF mapping input rows logits hp hf hrows hmap
  exact ⟨labels, hpred⟩

/-- C4: every `Label` returned by `predict` has `id` equal to the arg-max
index of the softmax probability vector of its row (witnessed by the
maximality of the probability at that index), `score` equal to the
probability at that index, and every such score lies in [0, 1]. -/
theorem seqcls_c4_predict_argmax_score_bounds (tok : TokenizerModel)
    (cls : SequenceClassificationOption (List (List ℤ)) (List (List ℚ)))
    (expF : ℚ → ℚ) (mapping : ℤ → Option String) (input : List String)
    (t : List (List ℤ)) (logits : List (List ℚ))
    (hexp : ∀ x, 0 < expF x)
    (hp : prepare_for_model tok input = some t)
    (hf : cls.forward_t (some t) none none none none false = some logits)
    (hrows : ∀ row ∈ logits, row ≠ [])
    (hmap : ∀ id : ℤ, (mapping id).isSome) :
    ∃ labels, predict tok cls expF mapping input = some labels ∧
      labels.length = logits.length ∧
      ∀ i, i < logits.length →
        ∃ j, argmaxIdx (softmax expF (logits.getD i [])) = some j ∧
          (labels.getD i defaultLabel).id = Int.ofNat j ∧
          (labels.getD i defaultLabel).score =
            (softmax expF (logits.getD i [])).getD j 0 ∧
          (∀ y ∈ softmax expF (logits.getD i []),
            y ≤ (labels.getD i defaultLabel).score) ∧
          0 ≤ (labels.getD i defaultLabel).score ∧
          (labels.getD i defaultLabel).score ≤ 1 := by
  obtain ⟨labels, hpred, hlen, hpt⟩ :=
    predict_spec tok cls expF mapping input t logits hp hf hrows hmap
  refine ⟨labels, hpred, hlen, ?_⟩
  intro i hi
  obtain ⟨j, hj, heq⟩ := hpt i hi
  have hjlt : j < (softmax expF (logits.getD i [])).length := argmaxIdx_lt hj
  have hmax := argmaxIdx_is_max hj
  have hmem : (softmax expF (logits.getD i [])).getD j 0 ∈
      softmax expF (logits.getD i []) := getD_mem_of_lt 0 _ j hjlt
  obtain ⟨h0, h1⟩ := softmax_mem_unit_interval hexp _ hmem
  refine ⟨j, hj, ?_, ?_, ?_, ?_, ?_⟩
  · rw [heq]
  · rw [heq]
  · rw [heq]; exact hmax
  · rw [heq]; exact h0
  · rw [heq]; exact h1

/-- C5: every label returned by `predict_multilabel` has a sigmoid score ≥ the
threshold, and only (sentence, class) coordinates selected by the ≥-threshold
test contribute a returned label (so no coordinate with score strictly below
the threshold appears). -/
theorem seqcls_c5_multilabel_threshold (tok : TokenizerModel)
    (cls : SequenceClassificationOption (List (List ℤ)) (List (List ℚ)))
    (expF : ℚ → ℚ) (mapping : ℤ → Option String) (input : List String)
    (threshold : ℚ) (t : List (List ℤ)) (logits : List (List ℚ))
    (hp : prepare_for_model tok input = some t)
    (hf : cls.forward_t (some t) none none none none false = some logits)
    (hmap : ∀ id : ℤ, (mapping id).isSome) :
    ∃ r, predict_multilabel tok cls expF mapping input threshold =
        some (Except.ok r) ∧
      ∀ lst ∈ r, ∀ L ∈ lst, threshold ≤ L.score ∧
        ∃ p ∈ nonzeroGE threshold (logits.map (fun row => row.map (sigmoid expF))) 0,
          L = selectionLabel mapping (logits.map (fun row => row.map (sigmoid expF))) p := by
  obtain ⟨r, hres, hflat⟩ :=
    predict_multilabel_spec tok cls expF mapping input threshold t logits hp hf hmap
  refine ⟨r, hres, ?_⟩
  intro lst hlst L hL
  have hLflat : L ∈ r.flatten := List.mem_flatten.mpr ⟨lst, hlst, hL⟩
  rw [hflat] at hLflat
  obtain ⟨p, hpmem, rfl⟩ := List.mem_map.mp hLflat
  obtain ⟨s, c⟩ := p
  have hth := (nonzeroGE_mem _ 0 hpmem).2.2
  refine ⟨?_, ⟨(s, c), hpmem, rfl⟩⟩
  simpa [selectionLabel] using hth

/-- C9: for every threshold ≥ 1, `predict_multilabel` selects no
(sentence, class) coordinate (every sigmoid score is strictly below 1) and
returns no label at all for any sentence. -/
theorem seqcls_c9_multilabel_high_threshold (tok : TokenizerModel)
    (cls : SequenceClassificationOption (List (List ℤ)) (List (List ℚ)))
    (expF : ℚ → ℚ) (mapping : ℤ → Option String) (input : List String)
    (threshold : ℚ) (t : List (List ℤ)) (logits : List (List ℚ))
    (hexp : ∀ x, 0 < expF x) (hth : 1 ≤ threshold)
    (hp : prepare_for_model tok input = some t)
    (hf : cls.forward_t (some t) none none none none false = some logits) :
    predict_multilabel tok cls expF mapping input threshold =
      some (Except.ok []) := by
  have hempty : nonzeroGE threshold (logits.map (fun row => row.map (sigmoid expF))) 0 = [] := by
    apply nonzeroGE_empty_of_lt
    intro row hrow x hx
    obtain ⟨src, -, rfl⟩ := List.mem_map.mp hrow
    obtain ⟨y, -, rfl⟩ := List.mem_map.mp hx
    exact lt_of_lt_of_le (sigmoid_lt_one hexp y) hth
  simp only [predict_multilabel, hp, hf, hempty]
  rfl

/-- C2 (amended): `predict_multilabel` returns per-sentence lists whose
concatenation is exactly the sequence of labels of the selected
(sentence, class) coordinates, in row-major order; the outer list is NOT
guaranteed to hold one entry per input text — sentences with zero selections
can be skipped or collapsed (see the counterexample), so a position can be
missing rather than holding an empty list. -/
theorem seqcls_c2_multilabel_grouping (tok : TokenizerModel)
    (cls : SequenceClassificationOption (List (List ℤ)) (List (List ℚ)))
    (expF : ℚ → ℚ) (mapping : ℤ → Option String) (input : List String)
    (threshold : ℚ) (t : List (List ℤ)) (logits : List (List ℚ))
    (hp : prepare_for_model tok input = some t)
    (hf : cls.forward_t (some t) none none none none false = some logits)
    (hmap : ∀ id : ℤ, (mapping id).isSome) :
    ∃ r, predict_multilabel tok cls expF mapping input threshold =
        some (Except.ok r) ∧
      r.flatten =
        (nonzeroGE threshold (logits.map (fun row => row.map (sigmoid expF))) 0).map
          (selectionLabel mapping (logits.map (fun row => row.map (sigmoid expF)))) :=
  predict_multilabel_spec tok cls expF mapping input threshold t logits hp hf hmap

/-- C10: `predict` and `predict_multilabel` consult the model only through a
forward pass whose attention-mask, token-type-id, position-id and
input-embedding arguments are `none` and whose training flag is `false`: two
models that agree on exactly those calls produce identical predictions, so no
attention mask distinguishing real tokens from pad tokens is ever
constructed. -/
theorem seqcls_c10_forward_called_without_mask (tok : TokenizerModel)
    (cls₁ cls₂ : SequenceClassificationOption (List (List ℤ)) (List (List ℚ)))
    (expF : ℚ → ℚ) (mapping : ℤ → Option String) (input : List String)
    (threshold : ℚ)
    (hagree : ∀ t : List (List ℤ),
      cls₁.forward_t (some t) none none none none false =
        cls₂.forward_t (some t) none none none none false) :
    predict tok cls₁ expF mapping input = predict tok cls₂ expF mapping input ∧
    predict_multilabel tok cls₁ expF mapping input threshold =
      predict_multilabel tok cls₂ expF mapping input threshold := by
  refine ⟨?_, ?_⟩
  · simp only [predict, hagree]
  · simp only [predict_multilabel, hagree]

/-- C6 (counterexample): the claim "construction fails exactly when the
configuration variant's family differs from the requested family, each
mismatched pair failing with its own distinct message, the three unimplemented
families failing identically" is false on the code in all three parts:
(1) the Roberta family succeeds with the Bert configuration variant although
the families differ; (2) a Bert-family mismatch and a Bart-family mismatch
panic with the very same message; (3) Electra and Marian do not fail
identically — their messages differ. -/
theorem seqcls_c6_counterexample :
    exceptIsOk (sequenceClassificationOptionNew ModelType.Roberta ConfigVariant.Bert) = true ∧
    newErrMsg ModelType.Bert ConfigVariant.Bart =
      some "You can only supply a BertConfig for Bert!" ∧
    newErrMsg ModelType.Bart ConfigVariant.Bert =
      some "You can only supply a BertConfig for Bert!" ∧
    newErrMsg ModelType.Electra ConfigVariant.Bert ≠
      newErrMsg ModelType.Marian ConfigVariant.Bert := by
  refine ⟨rfl, rfl, rfl, ?_⟩
  decide

/-- C6 (amended): construction fails fatally (a panic, never an error value)
exactly when the supplied configuration variant is not the one accepted for
the requested family — Bert, Roberta and XLMRoberta accept the Bert variant,
DistilBert, Albert and Bart require their own, and Electra, Marian and T5
(the three families without a classification head) accept none.  The panic
messages are descriptive but not pairwise distinct: Bert- and Bart-family
mismatches share one message, Roberta- and XLMRoberta-family mismatches share
one, and the three unimplemented families fail with three distinct
per-family messages of identical form. -/
theorem seqcls_c6_new_failure_characterization :
    (∀ (mt : ModelType) (cv : ConfigVariant),
      exceptIsOk (sequenceClassificationOptionNew mt cv) = acceptsConfig mt cv) ∧
    newErrMsg ModelType.Bert ConfigVariant.Bart = newErrMsg ModelType.Bart ConfigVariant.Bert ∧
    newErrMsg ModelType.Roberta ConfigVariant.Albert =
      newErrMsg ModelType.XLMRoberta ConfigVariant.Albert ∧
    newErrMsg ModelType.Electra ConfigVariant.Bert ≠
      newErrMsg ModelType.Marian ConfigVariant.Bert ∧
    newErrMsg ModelType.Electra ConfigVariant.Bert ≠
      newErrMsg ModelType.T5 ConfigVariant.Bert ∧
    newErrMsg ModelType.Marian ConfigVariant.Bert ≠
      newErrMsg ModelType.T5 ConfigVariant.Bert := by
  refine ⟨?_, rfl, rfl, ?_, ?_, ?_⟩ <;> decide

/-- C8: in `forward_t`, the Bart variant requires the optional token-id
tensor — its absence panics — and its logits are the `decoder_output` of the
underlying Bart forward pass (invoked with `none` for the three intermediate
optional arguments); every other variant accepts absent optional arguments
and extracts the `logits` field (for Roberta/XLMRoberta the first tuple
component) of its richer output structure, the DistilBert variant after
unwrapping the `Result` of its underlying forward pass. -/
theorem seqcls_c8_forward_dispatch {T L : Type} :
    (∀ (f : T → Option T → Option T → Option T → Option T → Bool →
        BartClassificationOutput L) (mask a b c : Option T) (train : Bool),
      (SequenceClassificationOption.Bart f).forward_t none mask a b c train = none) ∧
    (∀ (f : T → Option T → Option T → Option T → Option T → Bool →
        BartClassificationOutput L) (ids : T) (mask a b c : Option T) (train : Bool),
      (SequenceClassificationOption.Bart f).forward_t (some ids) mask a b c train =
        some (f ids mask none none none train).decoder_output) ∧
    (∀ (f : Option T → Option T → Option T → Option T → Option T → Bool →
        BertClassificationOutput L) (train : Bool),
      (SequenceClassificationOption.Bert f).forward_t none none none none none train =
        some (f none none none none none train).logits) ∧
    (∀ (f : Option T → Option T → Option T → Bool →
        Except RustBertError (DistilBertClassificationOutput L))
      (train : Bool) (o : DistilBertClassificationOutput L),
      f none none none train = Except.ok o →
      (SequenceClassificationOption.DistilBert f).forward_t none none none none none train =
        some o.logits) ∧
    (∀ (f : Option T → Option T → Option T → Option T → Option T → Bool →
        L × Option (List L)) (train : Bool),
      (SequenceClassificationOption.Roberta f).forward_t none none none none none train =
        some (f none none none none none train).1) ∧
    (∀ (f : Option T → Option T → Option T → Option T → Option T → Bool →
        L × Option (List L)) (train : Bool),
      (SequenceClassificationOption.XLMRoberta f).forward_t none none none none none train =
        some (f none none none none none train).1) ∧
    (∀ (f : Option T → Option T → Option T → Option T → Option T → Bool →
        AlbertClassificationOutput L) (train : Bool),
      (SequenceClassificationOption.Albert f).forward_t none none none none none train =
        some (f none none none none none train).logits) := by
  refine ⟨fun f mask a b c train => rfl, fun f ids mask a b c train => rfl,
    fun f train => rfl, ?_, fun f train => rfl, fun f train => rfl, fun f train => rfl⟩
  intro f train o hok
  simp only [SequenceClassificationOption.forward_t, hok]

/-! ### Concrete instantiations used by counterexamples and witnesses -/

/-- Concrete abstract-exponential instance (any strictly positive function). -/
def wExp : ℚ → ℚ := fun _ => 1

/-- Concrete tokenizer: every character becomes token id 3; pad id 9. -/
def wTok : TokenizerModel := { encode := fun s => List.replicate s.length 3, padId := some 9 }

/-- Concrete total label mapping. -/
def wMap : ℤ → Option String := fun _ => some "POSITIVE"

/-- Concrete two-class Bert-variant model: one `[0, 1]` logits row per input
row, for every input tensor. -/
def wCls : SequenceClassificationOption (List (List ℤ)) (List (List ℚ)) :=
  .Bert (fun ids _ _ _ _ _ =>
    { logits := (ids.getD []).map (fun _ => [(0 : ℚ), 1]), hidden_states := none })

/-- A model agreeing with `wCls` on every inference call (`train = false`)
but differing when `train = true`. -/
def wClsTrain : SequenceClassificationOption (List (List ℤ)) (List (List ℚ)) :=
  .Bert (fun ids _ _ _ _ train =>
    { logits := if train then [] else (ids.getD []).map (fun _ => [(0 : ℚ), 1])
      hidden_states := none })

/-- Concrete Bart-variant forward function over `T = L = ℕ`. -/
def wBartF : ℕ → Option ℕ → Option ℕ → Option ℕ → Option ℕ → Bool →
    BartClassificationOutput ℕ :=
  fun ids _ _ _ _ _ => { decoder_output := ids + 1, encoder_output := none }

/-- Concrete DistilBert-variant forward function over `T = L = ℕ`. -/
def wDistilF : Option ℕ → Option ℕ → Option ℕ → Bool →
    Except RustBertError (DistilBertClassificationOutput ℕ) :=
  fun _ _ _ _ => Except.ok { logits := 5, hidden_states := none }

/-- C2 (counterexample): with one input text whose two sigmoid scores (both
1/2) fall below the threshold 9/10, `predict_multilabel` returns an empty
outer list — zero per-sentence lists for one input text — so a sentence with
zero selections gets a missing position, not an empty list at its position,
refuting the claim that one list is returned per input text. -/
theorem seqcls_c2_counterexample :
    predict_multilabel wTok wCls wExp wMap ["a"] (9 / 10) = some (Except.ok []) ∧
    ¬ (∃ r : List (List Label),
        predict_multilabel wTok wCls wExp wMap ["a"] (9 / 10) = some (Except.ok r) ∧
        r.length = (["a"] : List String).length) := by
  have h : predict_multilabel wTok wCls wExp wMap ["a"] (9 / 10) = some (Except.ok []) := by
    norm_num [predict_multilabel, prepare_for_model, wTok, wCls, wExp, wMap,
      SequenceClassificationOption.forward_t, sigmoid, nonzeroGE, rowSelect, multilabelLoop]
  refine ⟨h, ?_⟩
  rintro ⟨r, hr, hlen⟩
  rw [h] at hr
  simp only [Option.some.injEq, Except.ok.injEq] at hr
  rw [← hr] at hlen
  simp at hlen

/-! ### Witnesses -/

/-- Witness for C3 at a concrete two-text batch. -/
theorem seqcls_c3_witness :
    (["ab", "a"] : List String) ≠ [] ∧ wTok.padId = some 9 ∧
    ∃ rows, prepare_for_model wTok ["ab", "a"] = some rows ∧
      rows.length = (["ab", "a"] : List String).length ∧
      (∀ row ∈ rows, row.length =
        min 128 (((["ab", "a"] : List String).map (fun s => (wTok.encode s).length)).foldr max 0)) ∧
      ∀ i, i < (["ab", "a"] : List String).length → rows.getD i [] =
        (wTok.encode ((["ab", "a"] : List String).getD i "")).take 128 ++
          List.replicate
            ((min 128 (((["ab", "a"] : List String).map
                (fun s => (wTok.encode s).length)).foldr max 0)) -
              ((wTok.encode ((["ab", "a"] : List String).getD i "")).take 128).length) 9 :=
  ⟨by decide, rfl, (seqcls_c3_prepare_batch_shape wTok ["ab", "a"] (by decide)).1 9 rfl⟩

/-- Witness for C1 at a concrete two-text batch. -/
theorem seqcls_c1_witness :
    wTok.padId = some 9 ∧ WellShaped wCls ∧ (∀ id : ℤ, (wMap id).isSome) ∧
    (["ab", "a"] : List String) ≠ [] ∧
    ∃ labels, predict wTok wCls wExp wMap ["ab", "a"] = some labels ∧
      labels.length = (["ab", "a"] : List String).length ∧
      ∀ i, i < (["ab", "a"] : List String).length →
        (labels.getD i defaultLabel).sentence = i := by
  have hws : WellShaped wCls := by
    intro t
    refine ⟨t.map (fun _ => [0, 1]), rfl, by simp, ?_⟩
    intro row hr
    obtain ⟨-, -, rfl⟩ := List.mem_map.mp hr
    exact List.cons_ne_nil _ _
  exact ⟨rfl, hws, fun _ => rfl, by decide,
    seqcls_c1_predict_one_label_per_input wTok wCls wExp wMap ["ab", "a"] 9 rfl hws
      (fun _ => rfl) (by decide)⟩

/-- Witness for C7 at a concrete one-text batch. -/
theorem seqcls_c7_witness :
    wTok.padId = some 9 ∧ WellShaped wCls ∧ (∀ id : ℤ, (wMap id).isSome) ∧
    (["x"] : List String) ≠ [] ∧
    ∃ labels, predict wTok wCls wExp wMap ["x"] = some labels := by
  have hws : WellShaped wCls := by
    intro t
    refine ⟨t.map (fun _ => [0, 1]), rfl, by simp, ?_⟩
    intro row hr
    obtain ⟨-, -, rfl⟩ := List.mem_map.mp hr
    exact List.cons_ne_nil _ _
  exact ⟨rfl, hws, fun _ => rfl, by decide,
    seqcls_c7_predict_no_error_path wTok wCls wExp wMap ["x"] 9 rfl hws
      (fun _ => rfl) (by decide)⟩

/-- Witness for C4 at a concrete two-text batch (prepared tensor
`[[3,3],[3,9]]`, logits `[[0,1],[0,1]]`). -/
theorem seqcls_c4_witness :
    (∀ x, 0 < wExp x) ∧
    prepare_for_model wTok ["ab", "a"] = some [[3, 3], [3, 9]] ∧
    wCls.forward_t (some [[3, 3], [3, 9]]) none none none none false =
      some [[0, 1], [0, 1]] ∧
    (∀ row ∈ ([[0, 1], [0, 1]] : List (List ℚ)), row ≠ []) ∧
    (∀ id : ℤ, (wMap id).isSome) ∧
    ∃ labels, predict wTok wCls wExp wMap ["ab", "a"] = some labels ∧
      labels.length = ([[0, 1], [0, 1]] : List (List ℚ)).length ∧
      ∀ i, i < ([[0, 1], [0, 1]] : List (List ℚ)).length →
        ∃ j, argmaxIdx (softmax wExp (([[0, 1], [0, 1]] : List (List ℚ)).getD i [])) = some j ∧
          (labels.getD i defaultLabel).id = Int.ofNat j ∧
          (labels.getD i defaultLabel).score =
            (softmax wExp (([[0, 1], [0, 1]] : List (List ℚ)).getD i [])).getD j 0 ∧
          (∀ y ∈ softmax wExp (([[0, 1], [0, 1]] : List (List ℚ)).getD i []),
            y ≤ (labels.getD i defaultLabel).score) ∧
          0 ≤ (labels.getD i defaultLabel).score ∧
          (labels.getD i defaultLabel).score ≤ 1 :=
  ⟨fun _ => one_pos, rfl, rfl, by decide, fun _ => rfl,
    seqcls_c4_predict_argmax_score_bounds wTok wCls wExp wMap ["ab", "a"]
      [[3, 3], [3, 9]] [[0, 1], [0, 1]] (fun _ => one_pos) rfl rfl (by decide)
      (fun _ => rfl)⟩

/-- Witness for C5 at a concrete two-text batch and threshold 0. -/
theorem seqcls_c5_witness :
    prepare_for_model wTok ["ab", "a"] = some [[3, 3], [3, 9]] ∧
    wCls.forward_t (some [[3, 3], [3, 9]]) none none none none false =
      some [[0, 1], [0, 1]] ∧
    (∀ id : ℤ, (wMap id).isSome) ∧
    ∃ r, predict_multilabel wTok wCls wExp wMap ["ab", "a"] 0 = some (Except.ok r) ∧
      ∀ lst ∈ r, ∀ L ∈ lst, (0 : ℚ) ≤ L.score ∧
        ∃ p ∈ nonzeroGE 0 (([[0, 1], [0, 1]] : List (List ℚ)).map
            (fun row => row.map (sigmoid wExp))) 0,
          L = selectionLabel wMap (([[0, 1], [0, 1]] : List (List ℚ)).map
            (fun row => row.map (sigmoid wExp))) p :=
  ⟨rfl, rfl, fun _ => rfl,
    seqcls_c5_multilabel_threshold wTok wCls wExp wMap ["ab", "a"] 0
      [[3, 3], [3, 9]] [[0, 1], [0, 1]] rfl rfl (fun _ => rfl)⟩

/-- Witness for C9 at a concrete two-text batch and threshold 2 ≥ 1. -/
theorem seqcls_c9_witness :
    (∀ x, 0 < wExp x) ∧ (1 : ℚ) ≤ 2 ∧
    prepare_for_model wTok ["ab", "a"] = some [[3, 3], [3, 9]] ∧
    wCls.forward_t (some [[3, 3], [3, 9]]) none none none none false =
      some [[0, 1], [0, 1]] ∧
    predict_multilabel wTok wCls wExp wMap ["ab", "a"] 2 = some (Except.ok []) :=
  ⟨fun _ => one_pos, one_le_two, rfl, rfl,
    seqcls_c9_multilabel_high_threshold wTok wCls wExp wMap ["ab", "a"] 2
      [[3, 3], [3, 9]] [[0, 1], [0, 1]] (fun _ => one_pos) one_le_two rfl rfl⟩

/-- Witness for the amended C2 at a concrete two-text batch and threshold 0. -/
theorem seqcls_c2_witness :
    prepare_for_model wTok ["ab", "a"] = some [[3, 3], [3, 9]] ∧
    wCls.forward_t (some [[3, 3], [3, 9]]) none none none none false =
      some [[0, 1], [0, 1]] ∧
    (∀ id : ℤ, (wMap id).isSome) ∧
    ∃ r, predict_multilabel wTok wCls wExp wMap ["ab", "a"] 0 = some (Except.ok r) ∧
      r.flatten =
        (nonzeroGE 0 (([[0, 1], [0, 1]] : List (List ℚ)).map
            (fun row => row.map (sigmoid wExp))) 0).map
          (selectionLabel wMap (([[0, 1], [0, 1]] : List (List ℚ)).map
            (fun row => row.map (sigmoid wExp)))) :=
  ⟨rfl, rfl, fun _ => rfl,
    seqcls_c2_multilabel_grouping wTok wCls wExp wMap ["ab", "a"] 0
      [[3, 3], [3, 9]] [[0, 1], [0, 1]] rfl rfl (fun _ => rfl)⟩

/-- Witness for C10: two concrete models that differ when `train = true` but
agree on every inference call yield identical predictions. -/
theorem seqcls_c10_witness :
    (∀ t : List (List ℤ),
      wClsTrain.forward_t (some t) none none none none false =
        wCls.forward_t (some t) none none none none false) ∧
    predict wTok wClsTrain wExp wMap ["ab", "a"] = predict wTok wCls wExp wMap ["ab", "a"] ∧
    predict_multilabel wTok wClsTrain wExp wMap ["ab", "a"] (1 / 2) =
      predict_multilabel wTok wCls wExp wMap ["ab", "a"] (1 / 2) :=
  ⟨fun _ => rfl,
    (seqcls_c10_forward_called_without_mask wTok wClsTrain wCls wExp wMap ["ab", "a"]
      (1 / 2) (fun _ => rfl)).1,
    (seqcls_c10_forward_called_without_mask wTok wClsTrain wCls wExp wMap ["ab", "a"]
      (1 / 2) (fun _ => rfl)).2⟩

/-- Witness for C8 at concrete forward functions over `T = L = ℕ`. -/
theorem seqcls_c8_witness :
    (SequenceClassificationOption.Bart wBartF).forward_t none none none none none false =
      none ∧
    (SequenceClassificationOption.Bart wBartF).forward_t (some 7) none none none none false =
      some 8 ∧
    wDistilF none none none false = Except.ok { logits := 5, hidden_states := none } ∧
    (SequenceClassificationOption.DistilBert wDistilF).forward_t none none none none none false =
      some 5 :=
  ⟨seqcls_c8_forward_dispatch.1 wBartF none none none none false,
    seqcls_c8_forward_dispatch.2.1 wBartF 7 none none none none false,
    rfl,
    seqcls_c8_forward_dispatch.2.2.2.1 wDistilF false
      { logits := 5, hidden_states := none } rfl⟩
